import Mathlib

/-!
Shallow embedding of the `link_check` command of the docs-tools repository.

The embedding models the crawl engine in `src/commands/link_check/`:
`utils.rs` (URL normalization, HTML sniffing, internal classification),
`visited.rs` (the visited guard), and `mod.rs` (the wave-based crawl loop,
per-URL processing, link extraction, summary and verdict).

Network fetches, the lychee external-check collaborator, and the HTML
token-extraction-plus-URL-parsing pipeline are external collaborators; they
are modelled as oracle functions bundled in a `World`.  The concurrent wave
(`buffer_unordered`) is sequentialised in FIFO order; atomic counters and the
mutex-guarded visited set become plain state threaded through the functions.
Rust string operations are modelled at character level over `String.data`.
-/

/-- Model of a parsed absolute URL (the `url` crate's `Url` as the program
uses it): scheme, host (including any port), path, optional query, optional
fragment. -/
structure Url where
  scheme : String
  host : String
  path : String
  query : Option String
  fragment : Option String
deriving DecidableEq

/-- Rust `str::starts_with` at character level. -/
def str_starts (s pre : String) : Bool :=
  pre.data.isPrefixOf s.data

/-- Rust `str::ends_with` at character level. -/
def str_ends (s suf : String) : Bool :=
  suf.data.isSuffixOf s.data

/-- Helper for `str_has`: does `pat` occur as a contiguous run in `s`? -/
def chars_has (s pat : List Char) : Bool :=
  match s with
  | [] => pat.isEmpty
  | c :: rest => pat.isPrefixOf (c :: rest) || chars_has rest pat

/-- Rust `str::contains` (substring occurrence) at character level. -/
def str_has (s pat : String) : Bool :=
  chars_has s.data pat.data

/-- Rust `str::to_lowercase`, restricted to the per-character lowering that
the extension suffixes exercise. -/
def str_lower (s : String) : String :=
  String.mk (s.data.map Char.toLower)

/-- Rust `str::ends_with('/')`: the last character is a slash. -/
def last_is_slash (s : String) : Bool :=
  s.data.getLast? == some '/'

/-- Rust `String::pop`: drop the last character. -/
def str_pop (s : String) : String :=
  String.mk s.data.dropLast

/-- Embeds `normalize_url` (utils.rs lines 32-44): clear the fragment and the
query, then drop a trailing slash when the path is longer than one character.
Rust compares `path.len() > 1` in bytes; this agrees with the character count
here because the guard also requires the last character to be the ASCII '/'. -/
def normalize_url (url : Url) : Url :=
  let normalized : Url := { url with fragment := none, query := none }
  let path := normalized.path
  if last_is_slash path && decide (1 < path.data.length) then
    { normalized with path := str_pop path }
  else normalized

/-- Embeds the extension test inside `is_html` (utils.rs lines 5-18): the
lowercased path ends in a known non-HTML extension. -/
def is_non_html_extension (url : Url) : Bool :=
  let path := str_lower url.path
  str_ends path ".svg" || str_ends path ".png" || str_ends path ".jpg" ||
  str_ends path ".jpeg" || str_ends path ".gif" || str_ends path ".ico" ||
  str_ends path ".css" || str_ends path ".js" || str_ends path ".json" ||
  str_ends path ".woff" || str_ends path ".woff2" || str_ends path ".ttf" ||
  str_ends path ".eot"

/-- Embeds `is_html` (utils.rs lines 3-30): a known non-HTML extension wins;
otherwise consult the content-type header when present; otherwise assume the
resource might be HTML. -/
def is_html (url : Url) (content_type : Option String) : Bool :=
  if is_non_html_extension url then false
  else
    match content_type with
    | some ct => str_has ct "text/html"
    | none => true

/-- Version of `is_html` following the specification's words (spec section
4.4): inspect the content-type header if present; only when it is absent fall
back to the URL-extension heuristic.  Written for comparison with the source
function `is_html`; it is not part of the program. -/
def is_html_spec (url : Url) (content_type : Option String) : Bool :=
  match content_type with
  | some ct => str_has ct "text/html"
  | none => !is_non_html_extension url

/-- Embeds the `StartsWith` impl for `Url` (utils.rs lines 57-61): equal
origin (scheme and host) and textual path-prefix containment. -/
def Url.starts_with (self base : Url) : Bool :=
  self.scheme == base.scheme && self.host == base.host &&
    str_starts self.path base.path

/-- Embeds `Visited::mark_visited` (visited.rs lines 17-29), with the
`HashSet` modelled as the list of inserted keys.  Returns `true` when the
normalized key was already present, otherwise inserts it and returns
`false`. -/
def mark_visited (visited : List Url) (url : Url) : Bool × List Url :=
  let normalized_url := normalize_url url
  if normalized_url ∈ visited then (true, visited)
  else (false, normalized_url :: visited)

/-- Embeds `UrlWithReferrer` (mod.rs lines 47-51). -/
structure UrlWithReferrer where
  url : Url
  referrer : Option Url
deriving DecidableEq

/-- Run-scoped configuration of the checker (mod.rs: the `base_url` and
`internal_only` fields of `LinkChecker`). -/
structure Config where
  base_url : Url
  internal_only : Bool
deriving DecidableEq

/-- Outcome of the raw `reqwest` GET in
`check_response_internal_maybe_html`: either a transport error, or a
response carrying HTTP-status success, the optional content-type header, and
the result of decoding the body as text (`none` models a decode failure). -/
inductive FetchOutcome where
  | transport_err : FetchOutcome
  | response (status_success : Bool) (content_type : Option String)
      (body : Option String) : FetchOutcome
deriving DecidableEq

/-- The external collaborators the crawl engine calls, as oracles:
`fetch` is the raw HTTP GET, `lychee` the external link validator (`none`
models `Err`, `some b` a response whose status success is `b`), and
`page_links` the composition of lychee's HTML token extractor with the `url`
crate's parsing and relative resolution in `extract_links` — it yields the
parsed candidate URLs of a page body before the engine's own filters. -/
structure World where
  fetch : Url → FetchOutcome
  lychee : Url → Option Bool
  page_links : Url → String → List Url

/-- The mutable crawl state: the frontier queue, the visited set, the two
counters, and a ghost trace `dispatched` recording every URL handed to a
network operation (it observes events and influences nothing). -/
structure CrawlState where
  queue : List UrlWithReferrer
  visited : List Url
  successful_checks : Nat
  failed_checks : Nat
  dispatched : List Url
deriving DecidableEq

/-- Count of non-empty '/'-separated path segments (the depth computation in
`extract_links`, mod.rs lines 335-341). -/
def path_depth (p : String) : Nat :=
  ((p.data.splitOn '/').filter (fun seg => !seg.isEmpty)).length

/-- Embeds `extract_links` (mod.rs lines 305-357): candidate URLs of the page
(token extraction, parsing and relative resolution are the `page_links`
oracle), each paired with the page as referrer, then filtered by the depth
cap and — when `internal_only` is set — by the internal classification. -/
def extract_links (cfg : Config) (w : World) (curr_base : Url) (s : String) :
    List UrlWithReferrer :=
  (((w.page_links curr_base s).map
        (fun url => UrlWithReferrer.mk url (some curr_base)))
      |>.filter (fun uwr => if path_depth uwr.url.path > 20 then false else true)
      |>.filter (fun uwr =>
        !cfg.internal_only || uwr.url.starts_with cfg.base_url))

/-- Embeds `CheckResult` (mod.rs lines 53-56). -/
inductive CheckResult where
  | success (next : Option (List UrlWithReferrer)) : CheckResult
  | failure : CheckResult
deriving DecidableEq

/-- Embeds `check_response_internal_maybe_html` (mod.rs lines 247-303):
transport error or non-success status are contained failures incrementing
the failed counter; a success increments the successful counter, then the
body is parsed for links only when `is_html` holds for the content-type; a
body text-decode failure is the one fatal error (`Except.error`). -/
def check_response_internal_maybe_html (cfg : Config) (w : World)
    (st : CrawlState) (url : Url) : Except String CheckResult × CrawlState :=
  match w.fetch url with
  | .transport_err =>
    (.ok .failure, { st with failed_checks := st.failed_checks + 1 })
  | .response status_success content_type body =>
    if !status_success then
      (.ok .failure, { st with failed_checks := st.failed_checks + 1 })
    else
      let st := { st with successful_checks := st.successful_checks + 1 }
      if !is_html url content_type then (.ok (.success none), st)
      else
        match body with
        | none => (.error "Failed to read response text", st)
        | some text =>
          (.ok (.success (some (extract_links cfg w url text))), st)

/-- Embeds `check_non_internal_html` (mod.rs lines 359-397): delegate to the
lychee collaborator; an error or a non-success status increments the failed
counter, a success the successful counter. -/
def check_non_internal_html (w : World) (st : CrawlState) (url : Url) :
    CrawlState :=
  match w.lychee url with
  | some status_success =>
    if !status_success then
      { st with failed_checks := st.failed_checks + 1 }
    else { st with successful_checks := st.successful_checks + 1 }
  | none => { st with failed_checks := st.failed_checks + 1 }

/-- Which branch of `process_url_parallel` fired for one frontier entry.
`dispatched_internal` carries the fatal body-decode error message when the
internal fetch aborted the crawl. -/
inductive ProcessOutcome where
  | skipped_scheme : ProcessOutcome
  | skipped_visited : ProcessOutcome
  | skipped_internal_only : ProcessOutcome
  | dispatched_internal (fatal : Option String) : ProcessOutcome
  | dispatched_external : ProcessOutcome
deriving DecidableEq

/-- The outcome dispatched a network operation (either strategy). -/
def ProcessOutcome.is_dispatched : ProcessOutcome → Bool
  | .dispatched_internal _ => true
  | .dispatched_external => true
  | _ => false

/-- Embeds `process_url_parallel` (mod.rs lines 195-245): skip non-http(s)
schemes, then mark visited (skipping on a second visit), then drop external
URLs under `internal_only`, then dispatch: internal-and-maybe-HTML URLs go
through the raw fetch (new links are pushed onto the shared queue), all
others through the lychee check.  The returned state mirrors every mutation
the source performs up to the point the function returns. -/
def process_url_parallel (cfg : Config) (w : World) (st : CrawlState)
    (uwr : UrlWithReferrer) : ProcessOutcome × CrawlState :=
  let url := uwr.url
  if !str_starts url.scheme "http" then (.skipped_scheme, st)
  else
    let marked := mark_visited st.visited url
    let st1 : CrawlState := { st with visited := marked.2 }
    if marked.1 then (.skipped_visited, st1)
    else if cfg.internal_only && !url.starts_with cfg.base_url then
      (.skipped_internal_only, st1)
    else if url.starts_with cfg.base_url && is_html url none then
      let st2 : CrawlState := { st1 with dispatched := st1.dispatched ++ [url] }
      match check_response_internal_maybe_html cfg w st2 url with
      | (.ok (.success (some next)), st3) =>
        (.dispatched_internal none, { st3 with queue := st3.queue ++ next })
      | (.ok _, st3) => (.dispatched_internal none, st3)
      | (.error e, st3) => (.dispatched_internal (some e), st3)
    else
      let st2 : CrawlState := { st1 with dispatched := st1.dispatched ++ [url] }
      (.dispatched_external, check_non_internal_html w st2 url)

/-- Sequentialisation of one wave (the `buffer_unordered` batch of
`run_queue`, mod.rs lines 175-190): process every drained entry in FIFO
order, threading the shared state, and report the first fatal error, if any
— the source collects all results and propagates the first `Err`. -/
def process_batch (cfg : Config) (w : World) (st : CrawlState) :
    List UrlWithReferrer → CrawlState × Option String
  | [] => (st, none)
  | e :: rest =>
    let step := process_url_parallel cfg w st e
    let tail := process_batch cfg w step.2 rest
    match step.1 with
    | .dispatched_internal (some msg) => (tail.1, some msg)
    | _ => tail

/-- Embeds the `run_queue` loop (mod.rs lines 154-193) with explicit fuel:
drain up to `max_concurrent` entries from the queue front; an empty batch
terminates the loop; otherwise process the wave and repeat.  Returns `none`
when the fuel runs out, otherwise the source's result: the fatal error, or
the number of waves executed together with the final state. -/
def run_queue_fuel (cfg : Config) (w : World) (max_concurrent : Nat) :
    Nat → CrawlState → Option (Except String (Nat × CrawlState))
  | 0, _ => none
  | fuel + 1, st =>
    let batch := st.queue.take max_concurrent
    if batch.isEmpty then some (.ok (0, st))
    else
      let wave := process_batch cfg w
        { st with queue := st.queue.drop max_concurrent } batch
      match wave.2 with
      | some msg => some (.error msg)
      | none =>
        match run_queue_fuel cfg w max_concurrent fuel wave.1 with
        | none => none
        | some (.error msg) => some (.error msg)
        | some (.ok (n, fin)) => some (.ok (n + 1, fin))

/-- Embeds `display_summary` (mod.rs lines 399-408) as the reported triple
(total, successful, failed). -/
def display_summary (successful_checks failed_checks : Nat) :
    Nat × Nat × Nat :=
  (successful_checks + failed_checks, successful_checks, failed_checks)

/-- Embeds `fail_on_error` (mod.rs lines 410-416). -/
def fail_on_error (failed_checks : Nat) : Except String Unit :=
  if failed_checks > 0 then .error "Some links failed to check" else .ok ()

/-- Initial crawl state: the frontier seeded with the start URL (mod.rs
lines 136-140). -/
def init_state (start : Url) : CrawlState :=
  { queue := [⟨start, none⟩], visited := [], successful_checks := 0,
    failed_checks := 0, dispatched := [] }

/-- Crawl state with an empty frontier and zeroed counters, used as a base
for concrete scenarios. -/
def empty_state : CrawlState :=
  { queue := [], visited := [], successful_checks := 0, failed_checks := 0,
    dispatched := [] }

/-- Finiteness hypothesis on the oracle world: a finite set `site` of URLs,
closed under link discovery, in which every page yields at most `link_bound`
candidate links.  This models the spec's finite link graph. -/
def GoodWorld (w : World) (site : List Url) (link_bound : Nat) : Prop :=
  ∀ u, u ∈ site → ∀ s, (w.page_links u s).length ≤ link_bound ∧
    ∀ v, v ∈ w.page_links u s → v ∈ site

/-- Every frontier entry's URL belongs to the site. -/
def QueueInSite (site : List Url) (st : CrawlState) : Prop :=
  ∀ e, e ∈ st.queue → e.url ∈ site

/-- Number of distinct normalized keys of the site not yet visited. -/
def unvisited_count (site : List Url) (visited : List Url) : Nat :=
  ((site.map normalize_url).toFinset.filter (fun k => k ∉ visited)).card

/-- Termination measure for the crawl loop: pending frontier entries plus
`link_bound` budget for every site key not yet visited. -/
def crawl_measure (site : List Url) (link_bound : Nat) (st : CrawlState) :
    Nat :=
  st.queue.length + unvisited_count site st.visited * link_bound

/-- Dispatch invariant: the normalized keys of dispatched URLs are pairwise
distinct, and each is recorded in the visited set. -/
def DispatchInv (st : CrawlState) : Prop :=
  (st.dispatched.map normalize_url).Nodup ∧
  ∀ u, u ∈ st.dispatched → normalize_url u ∈ st.visited

/-- Site root page for the concrete scenarios. -/
def urlA : Url :=
  { scheme := "https", host := "a.com", path := "/", query := none,
    fragment := none }

/-- Second page of the two-page site. -/
def urlB : Url :=
  { scheme := "https", host := "a.com", path := "/b", query := none,
    fragment := none }

/-- Base configuration: base URL `urlA`, externals allowed. -/
def cfg0 : Config := { base_url := urlA, internal_only := false }

/-- Two-page world: the root page links to `urlB`; `urlB` is a non-HTML
resource; every fetch succeeds. -/
def w2 : World where
  fetch := fun u =>
    if u = urlA then .response true (some "text/html") (some "pageA")
    else .response true (some "text/plain") none
  lychee := fun _ => some true
  page_links := fun u _ => if u = urlA then [urlB] else []

/-- Final state of crawling the two-page world from `urlA`. -/
def finA : CrawlState :=
  { queue := [], visited := [urlB, urlA], successful_checks := 2,
    failed_checks := 0, dispatched := [urlA, urlB] }

/-- World in which every internal fetch fails at transport level, every
external check succeeds, and no page yields links. -/
def w_leaf : World where
  fetch := fun _ => .transport_err
  lychee := fun _ => some true
  page_links := fun _ _ => []

/-- World in which every fetch returns a successful HTML response whose body
fails to decode as text. -/
def w_fatal : World where
  fetch := fun _ => .response true (some "text/html") none
  lychee := fun _ => some true
  page_links := fun _ _ => []

/-- Base URL with a non-root path, for internal-only scenarios. -/
def urlDocs : Url :=
  { scheme := "https", host := "a.com", path := "/docs", query := none,
    fragment := none }

/-- Internal-only configuration over the `/docs` base. -/
def cfgI : Config := { base_url := urlDocs, internal_only := true }

/-- Internal image URL below the `/docs` base. -/
def urlPng : Url :=
  { scheme := "https", host := "a.com", path := "/docs/x.png", query := none,
    fragment := none }

/-- External URL (different origin). -/
def urlExt : Url :=
  { scheme := "https", host := "b.com", path := "/x", query := none,
    fragment := none }

/-- URL whose scheme starts with "http" without being http or https. -/
def urlZ : Url :=
  { scheme := "httpz", host := "a.com", path := "/z", query := none,
    fragment := none }

/-- URL whose path has 21 non-empty segments. -/
def urlDeep : Url :=
  { scheme := "https", host := "a.com",
    path := "/a/a/a/a/a/a/a/a/a/a/a/a/a/a/a/a/a/a/a/a/a", query := none,
    fragment := none }

/-- URL with a trailing slash, for the normalization equivalence. -/
def urlX1 : Url :=
  { scheme := "https", host := "a.com", path := "/x/", query := none,
    fragment := none }

/-- URL without a trailing slash, for the normalization equivalence. -/
def urlX2 : Url :=
  { scheme := "https", host := "a.com", path := "/x", query := none,
    fragment := none }

/-- URL with query and fragment, for the normalization equivalence. -/
def urlX3 : Url :=
  { scheme := "https", host := "a.com", path := "/x", query := some "q=1",
    fragment := some "f" }

/-- URL with a non-http scheme. -/
def urlFtp : Url :=
  { scheme := "ftp", host := "a.com", path := "/f", query := none,
    fragment := none }

/-- State after a crawl that dispatched exactly one contained per-URL
failure for `u` from frontier `[u]` on top of `st`. -/
def contained_failure_state (st : CrawlState) (u : Url) : CrawlState :=
  { st with
    queue := [],
    visited := normalize_url u :: st.visited,
    failed_checks := st.failed_checks + 1,
    dispatched := st.dispatched ++ [u] }

theorem string_eq_of_data {a b : String} (h : a.data = b.data) : a = b := by
  cases a
  cases b
  simp only at h
  rw [h]

theorem str_pop_slash (s : String) (h : last_is_slash s = true) :
    str_pop s ++ "/" = s := by
  simp only [last_is_slash, beq_iff_eq] at h
  have hne : s.data ≠ [] := by intro he; rw [he] at h; cases h
  have h4 : s.data.getLast hne = '/' := by
    have h3 := List.getLast?_eq_getLast s.data hne
    rw [h3] at h
    exact Option.some_inj.mp h
  apply string_eq_of_data
  rw [String.data_append]
  simp only [str_pop]
  rw [← h4]
  exact List.dropLast_append_getLast hne

/-- C5: `normalize_url` removes the fragment and the query, and removes a
trailing '/' unless the path is root: whenever the path ends in '/' and is
not "/", the normalized path is the input path with that final slash
removed; a path not ending in '/' is unchanged; the root path "/" is
preserved; in particular the three URLs `https://a.com/x/`,
`https://a.com/x` and `https://a.com/x?q=1#f` all normalize to the same
key. -/
theorem normalize_url_spec (u : Url) :
    (normalize_url u).fragment = none ∧ (normalize_url u).query = none ∧
    (last_is_slash u.path = true → u.path ≠ "/" →
      (normalize_url u).path ++ "/" = u.path) ∧
    (last_is_slash u.path = false → (normalize_url u).path = u.path) ∧
    (u.path = "/" → (normalize_url u).path = "/") ∧
    normalize_url urlX1 = normalize_url urlX2 ∧
    normalize_url urlX3 = normalize_url urlX2 := by
  refine ⟨?_, ?_, ?_, ?_, ?_, by decide, by decide⟩
  · simp only [normalize_url]
    split <;> rfl
  · simp only [normalize_url]
    split <;> rfl
  · intro hs hroot
    have hne : u.path.data ≠ [] := by
      intro h0
      rw [last_is_slash, h0] at hs
      cases hs
    have hlen : 1 < u.path.data.length := by
      rcases Nat.lt_or_ge 1 u.path.data.length with h | h
      · exact h
      · exfalso
        have h0 : u.path.data.length = 0 ∨ u.path.data.length = 1 := by omega
        rcases h0 with h0 | h0
        · exact hne (List.length_eq_zero.mp h0)
        · obtain ⟨c, hc⟩ := List.length_eq_one.mp h0
          apply hroot
          apply string_eq_of_data
          rw [last_is_slash, hc] at hs
          simp only [List.getLast?_singleton, beq_iff_eq,
            Option.some_inj] at hs
          rw [hc, hs]
    have hcond :
        (last_is_slash u.path && decide (1 < u.path.data.length)) = true := by
      rw [hs, Bool.true_and, decide_eq_true_eq]
      exact hlen
    simp only [normalize_url, hcond]
    rw [if_pos trivial]
    exact str_pop_slash u.path hs
  · intro hs
    have hcond :
        (last_is_slash u.path && decide (1 < u.path.data.length)) = false := by
      rw [hs, Bool.false_and]
    simp only [normalize_url, hcond]
    rw [if_neg]
    simp [Bool.false_eq_true]
  · intro hroot
    have hc : (last_is_slash "/" && decide (1 < "/".data.length)) = false := by
      decide
    simp only [normalize_url, hroot, hc]
    rw [if_neg]
    simp [Bool.false_eq_true]

/-- Witness for C5 at the concrete URLs `https://a.com/x/` (trailing slash
removed) and `https://a.com/x` (path unchanged). -/
theorem normalize_url_spec_witness :
    last_is_slash urlX1.path = true ∧ urlX1.path ≠ "/" ∧
    (normalize_url urlX1).path ++ "/" = urlX1.path ∧
    last_is_slash urlX2.path = false ∧
    (normalize_url urlX2).path = urlX2.path :=
  ⟨by decide, by decide,
    (normalize_url_spec urlX1).2.2.1 (by decide) (by decide),
    by decide, (normalize_url_spec urlX2).2.2.2.1 (by decide)⟩

/-- C7 counterexample: for a URL whose path ends in `.png` fetched with a
`text/html` content-type header, the code classifies the response as
non-HTML — the extension heuristic overrides the present header — while the
claim as stated (header inspected whenever present) classifies it as HTML. -/
theorem is_html_counterexample :
    is_html urlPng (some "text/html") = false ∧
    is_html_spec urlPng (some "text/html") = true := by decide

/-- C7 amended: the URL-extension heuristic is applied first and a known
non-HTML extension forces the non-HTML classification even when a
content-type header is present; the header is inspected only when the
extension heuristic does not fire; with no header and no non-HTML extension
the response is assumed to be HTML. -/
theorem is_html_order (url : Url) (ct : String) :
    (is_non_html_extension url = true →
      ∀ c : Option String, is_html url c = false) ∧
    (is_non_html_extension url = false →
      is_html url (some ct) = str_has ct "text/html") ∧
    (is_non_html_extension url = false → is_html url none = true) := by
  refine ⟨?_, ?_, ?_⟩ <;> intro h
  · intro c; simp [is_html, h]
  · simp [is_html, h]
  · simp [is_html, h]

/-- Witness for C7 amended at the `.png` URL and the root URL. -/
theorem is_html_order_witness :
    is_non_html_extension urlPng = true ∧ is_html urlPng none = false ∧
    is_non_html_extension urlA = false ∧
    is_html urlA (some "text/html") = str_has "text/html" "text/html" :=
  ⟨by decide, (is_html_order urlPng "").1 (by decide) none,
    by decide, (is_html_order urlA "text/html").2.1 (by decide)⟩

/-- C9: when the crawl loop has run to completion (frontier exhausted), the
summary reports total = successful + failed alongside the two counters, and
the final verdict is a failure exactly when the failed counter is positive
(zero failures — in particular zero checks — is a success). -/
theorem final_verdict (cfg : Config) (w : World) (K fuel : Nat)
    (st : CrawlState) (n : Nat) (fin : CrawlState)
    (_h : run_queue_fuel cfg w K fuel st = some (.ok (n, fin))) :
    display_summary fin.successful_checks fin.failed_checks =
      (fin.successful_checks + fin.failed_checks, fin.successful_checks,
        fin.failed_checks) ∧
    (fail_on_error fin.failed_checks = .ok () ↔ fin.failed_checks = 0) := by
  constructor
  · rfl
  · simp only [fail_on_error]
    split
    · next hpos =>
      constructor
      · intro hcontra; cases hcontra
      · intro hzero; omega
    · next hnp =>
      constructor
      · intro _; omega
      · intro _; rfl

/-- Witness for C9 on the completed two-page crawl. -/
theorem final_verdict_witness :
    run_queue_fuel cfg0 w2 10 5 (init_state urlA) = some (.ok (2, finA)) ∧
    (fail_on_error finA.failed_checks = .ok () ↔ finA.failed_checks = 0) :=
  ⟨rfl, (final_verdict cfg0 w2 10 5 (init_state urlA) 2 finA rfl).2⟩

/-- C6 counterexample: the scheme gate is `scheme().starts_with("http")`, so
the URL `httpz://a.com/z` — whose scheme is neither http nor https — passes
the gate, is dispatched to the external check, and increments the successful
counter, contradicting "only http/https pass; anything else is dropped,
uncounted". -/
theorem scheme_check_counterexample :
    urlZ.scheme ≠ "http" ∧ urlZ.scheme ≠ "https" ∧
    (process_url_parallel cfg0 w_leaf empty_state ⟨urlZ, none⟩).1 =
      .dispatched_external ∧
    (process_url_parallel cfg0 w_leaf empty_state ⟨urlZ, none⟩).2.successful_checks = 1 := by
  refine ⟨by decide, by decide, rfl, rfl⟩

/-- C6 amended: the scheme gate passes exactly the URLs whose scheme starts
with "http" (in particular http and https pass); a URL whose scheme does not
start with "http" is dropped before dispatch with the whole state unchanged,
so it increments neither counter. -/
theorem scheme_check (cfg : Config) (w : World) (st : CrawlState)
    (e : UrlWithReferrer) :
    (str_starts e.url.scheme "http" = false →
      process_url_parallel cfg w st e = (.skipped_scheme, st)) ∧
    ((e.url.scheme = "http" ∨ e.url.scheme = "https") →
      (process_url_parallel cfg w st e).1 ≠ .skipped_scheme) := by
  constructor
  · intro h
    simp [process_url_parallel, h]
  · intro h
    have hs : str_starts e.url.scheme "http" = true := by
      rcases h with h | h <;> rw [h] <;> decide
    simp only [process_url_parallel, hs, Bool.not_true]
    rw [if_neg (by simp)]
    split
    · simp
    · split
      · simp
      · split
        · split <;> simp
        · simp

/-- Witness for C6 amended: an ftp URL is dropped with the state unchanged,
and the http root URL passes the scheme gate. -/
theorem scheme_check_witness :
    str_starts urlFtp.scheme "http" = false ∧
    process_url_parallel cfg0 w_leaf empty_state ⟨urlFtp, none⟩ =
      (.skipped_scheme, empty_state) ∧
    (urlA.scheme = "http" ∨ urlA.scheme = "https") ∧
    (process_url_parallel cfg0 w_leaf empty_state ⟨urlA, none⟩).1 ≠
      .skipped_scheme :=
  ⟨by decide,
    (scheme_check cfg0 w_leaf empty_state ⟨urlFtp, none⟩).1 (by decide),
    Or.inr rfl,
    (scheme_check cfg0 w_leaf empty_state ⟨urlA, none⟩).2 (Or.inr rfl)⟩

/-- C3 counterexample: the URL with 21 non-empty path segments, seeded into
the frontier, is dispatched to the internal fetch and increments the failed
counter — `process_url_parallel` applies no depth filter, so the depth cap
does not hold at dispatch time. -/
theorem depth_dispatch_counterexample :
    path_depth urlDeep.path = 21 ∧
    (process_url_parallel cfg0 w_leaf empty_state ⟨urlDeep, none⟩).1 =
      .dispatched_internal none ∧
    (process_url_parallel cfg0 w_leaf empty_state ⟨urlDeep, none⟩).2.failed_checks = 1 := by
  refine ⟨by decide, rfl, rfl⟩

/-- C3 amended: the depth filter is applied only during link extraction
(before insertion into the frontier): every entry `extract_links` returns
has at most 20 non-empty path segments, so an extracted URL with more can
never reach the frontier nor dispatch; there is no second depth filter at
dispatch time, and a deeper URL seeded directly (the start URL) is
dispatched and counted. -/
theorem depth_filter_extraction (cfg : Config) (w : World) (b : Url)
    (s : String) (e : UrlWithReferrer) (h : e ∈ extract_links cfg w b s) :
    path_depth e.url.path ≤ 20 := by
  simp only [extract_links] at h
  have h1 := (List.mem_filter.mp h).1
  have h2 := (List.mem_filter.mp h1).2
  by_contra hgt
  rw [if_pos (by omega)] at h2
  cases h2

/-- Witness for C3 amended on the link extracted from the root page. -/
theorem depth_filter_extraction_witness :
    (⟨urlB, some urlA⟩ : UrlWithReferrer) ∈ extract_links cfg0 w2 urlA "pageA" ∧
    path_depth urlB.path ≤ 20 :=
  ⟨by decide, depth_filter_extraction cfg0 w2 urlA "pageA" ⟨urlB, some urlA⟩ (by decide)⟩

/-- C4 counterexample: with `internal_only` set over the `/docs` base, the
internal image URL `/docs/x.png` is dispatched to the lychee external-check
collaborator — so the collaborator is invoked even on an internal-only
crawl. -/
theorem internal_only_lychee_counterexample :
    cfgI.internal_only = true ∧
    urlPng.starts_with cfgI.base_url = true ∧
    (process_url_parallel cfgI w_leaf empty_state ⟨urlPng, none⟩).1 =
      .dispatched_external := by
  refine ⟨rfl, by decide, rfl⟩

/-- C4 amended: with `internal_only` set, every URL that reaches a network
dispatch (either strategy) is classified internal — external URLs are
dropped before dispatch and generate no network call — and link extraction
filters out external URLs, so none enters the frontier through extraction;
the external-check collaborator itself may however still be invoked, namely
for internal URLs whose extension marks them as non-HTML. -/
theorem internal_only_policy (cfg : Config) (w : World) (st : CrawlState)
    (e : UrlWithReferrer) (b : Url) (s : String) (e2 : UrlWithReferrer)
    (hio : cfg.internal_only = true) :
    ((process_url_parallel cfg w st e).1.is_dispatched = true →
      e.url.starts_with cfg.base_url = true) ∧
    (e2 ∈ extract_links cfg w b s → e2.url.starts_with cfg.base_url = true) := by
  constructor
  · intro hd
    by_cases hs : e.url.starts_with cfg.base_url
    · exact hs
    · exfalso
      rw [Bool.not_eq_true] at hs
      by_cases hh : str_starts e.url.scheme "http"
      · by_cases hm : (mark_visited st.visited e.url).1
        · simp [process_url_parallel, ProcessOutcome.is_dispatched, hh, hm] at hd
        · simp [process_url_parallel, ProcessOutcome.is_dispatched, hh, hm,
            hio, hs] at hd
      · rw [Bool.not_eq_true] at hh
        simp [process_url_parallel, ProcessOutcome.is_dispatched, hh] at hd
  · intro hmem
    simp only [extract_links] at hmem
    have h2 := (List.mem_filter.mp hmem).2
    rw [hio] at h2
    simpa using h2

/-- Witness for C4 amended: on the internal-only crawl the dispatched image
URL is internal, and the extracted link of the two-page world is internal. -/
theorem internal_only_policy_witness :
    cfgI.internal_only = true ∧
    ((process_url_parallel cfgI w_leaf empty_state ⟨urlPng, none⟩).1.is_dispatched = true →
      urlPng.starts_with cfgI.base_url = true) :=
  ⟨rfl, (internal_only_policy cfgI w_leaf empty_state ⟨urlPng, none⟩ urlA ""
    ⟨urlA, none⟩ rfl).1⟩

/-- C10: for a dequeued http(s) URL, the visited mark is taken before the
internal-only policy is evaluated — a URL rejected by the internal-only
policy nevertheless has its normalized key inserted into the visited set,
and any later entry with the same normalized key is skipped as
already-visited rather than re-evaluated. -/
theorem visited_marked_before_internal_only (cfg : Config) (w : World)
    (st : CrawlState) (e e2 : UrlWithReferrer)
    (h1 : str_starts e.url.scheme "http" = true)
    (h2 : normalize_url e.url ∉ st.visited)
    (h3 : cfg.internal_only = true)
    (h4 : e.url.starts_with cfg.base_url = false)
    (h5 : normalize_url e2.url = normalize_url e.url)
    (h6 : str_starts e2.url.scheme "http" = true) :
    process_url_parallel cfg w st e =
      (.skipped_internal_only,
        { st with visited := normalize_url e.url :: st.visited }) ∧
    (process_url_parallel cfg w
        { st with visited := normalize_url e.url :: st.visited } e2).1 =
      .skipped_visited := by
  constructor
  · simp [process_url_parallel, mark_visited, h1, h2, h3, h4]
  · simp [process_url_parallel, mark_visited, h6, h5]

/-- Witness for C10: the external URL `https://b.com/x` under the
internal-only `/docs` crawl. -/
theorem visited_marked_before_internal_only_witness :
    str_starts urlExt.scheme "http" = true ∧
    normalize_url urlExt ∉ empty_state.visited ∧
    cfgI.internal_only = true ∧
    urlExt.starts_with cfgI.base_url = false ∧
    process_url_parallel cfgI w_leaf empty_state ⟨urlExt, none⟩ =
      (.skipped_internal_only,
        { empty_state with visited := normalize_url urlExt :: empty_state.visited }) ∧
    (process_url_parallel cfgI w_leaf
        { empty_state with visited := normalize_url urlExt :: empty_state.visited }
        ⟨urlExt, none⟩).1 = .skipped_visited := by
  have h := visited_marked_before_internal_only cfgI w_leaf empty_state
    ⟨urlExt, none⟩ ⟨urlExt, none⟩ (by decide) (by decide) rfl (by decide) rfl
    (by decide)
  exact ⟨by decide, by decide, rfl, by decide, h.1, h.2⟩

theorem process_fatal_eq (cfg : Config) (w : World) (st : CrawlState)
    (e : UrlWithReferrer) (ct : Option String)
    (h1 : str_starts e.url.scheme "http" = true)
    (h2 : normalize_url e.url ∉ st.visited)
    (h3 : cfg.internal_only = false)
    (h4 : (e.url.starts_with cfg.base_url && is_html e.url none) = true)
    (hf : w.fetch e.url = .response true ct none)
    (hh : is_html e.url ct = true) :
    process_url_parallel cfg w st e =
      (.dispatched_internal (some "Failed to read response text"),
        { st with visited := normalize_url e.url :: st.visited,
                  successful_checks := st.successful_checks + 1,
                  dispatched := st.dispatched ++ [e.url] }) := by
  simp [process_url_parallel, check_response_internal_maybe_html,
    mark_visited, h1, h2, h3, h4, hf, hh]

theorem process_transport_eq (cfg : Config) (w : World) (st : CrawlState)
    (e : UrlWithReferrer)
    (h1 : str_starts e.url.scheme "http" = true)
    (h2 : normalize_url e.url ∉ st.visited)
    (h3 : cfg.internal_only = false)
    (h4 : (e.url.starts_with cfg.base_url && is_html e.url none) = true)
    (hf : w.fetch e.url = .transport_err) :
    process_url_parallel cfg w st e =
      (.dispatched_internal none,
        { st with visited := normalize_url e.url :: st.visited,
                  failed_checks := st.failed_checks + 1,
                  dispatched := st.dispatched ++ [e.url] }) := by
  simp [process_url_parallel, check_response_internal_maybe_html,
    mark_visited, h1, h2, h3, h4, hf]

theorem process_non2xx_eq (cfg : Config) (w : World) (st : CrawlState)
    (e : UrlWithReferrer) (ct : Option String) (body : Option String)
    (h1 : str_starts e.url.scheme "http" = true)
    (h2 : normalize_url e.url ∉ st.visited)
    (h3 : cfg.internal_only = false)
    (h4 : (e.url.starts_with cfg.base_url && is_html e.url none) = true)
    (hf : w.fetch e.url = .response false ct body) :
    process_url_parallel cfg w st e =
      (.dispatched_internal none,
        { st with visited := normalize_url e.url :: st.visited,
                  failed_checks := st.failed_checks + 1,
                  dispatched := st.dispatched ++ [e.url] }) := by
  simp [process_url_parallel, check_response_internal_maybe_html,
    mark_visited, h1, h2, h3, h4, hf]

/-- C8: for a dispatchable internal-HTML frontier entry, a body that fails
to decode as text makes the whole crawl abort with the fatal error — the
error propagates out of the wave loop for any remaining fuel — whereas a
transport error or a non-2xx status on the very same entry is contained: it
increments the failed counter and the crawl runs on to normal completion. -/
theorem body_decode_aborts_crawl (cfg : Config) (w : World) (st : CrawlState)
    (e : UrlWithReferrer) (fuel : Nat)
    (h1 : str_starts e.url.scheme "http" = true)
    (h2 : normalize_url e.url ∉ st.visited)
    (h3 : cfg.internal_only = false)
    (h4 : (e.url.starts_with cfg.base_url && is_html e.url none) = true) :
    (∀ ct, w.fetch e.url = .response true ct none → is_html e.url ct = true →
      run_queue_fuel cfg w 10 (fuel + 1) { st with queue := [e] } =
        some (.error "Failed to read response text")) ∧
    (w.fetch e.url = .transport_err →
      run_queue_fuel cfg w 10 2 { st with queue := [e] } =
        some (.ok (1, contained_failure_state st e.url))) ∧
    (∀ ct body, w.fetch e.url = .response false ct body →
      run_queue_fuel cfg w 10 2 { st with queue := [e] } =
        some (.ok (1, contained_failure_state st e.url))) := by
  refine ⟨?_, ?_, ?_⟩
  · intro ct hf hh
    have hp := process_fatal_eq cfg w { st with queue := ([] : List UrlWithReferrer) } e ct h1 h2 h3 h4 hf hh
    simp only [run_queue_fuel, process_batch]
    simp [hp]
  · intro hf
    have hp := process_transport_eq cfg w { st with queue := ([] : List UrlWithReferrer) } e h1 h2 h3 h4 hf
    have ht : (List.take 10 [e] : List UrlWithReferrer) = [e] := rfl
    have hd : (List.drop 10 [e] : List UrlWithReferrer) = [] := rfl
    simp only [run_queue_fuel, process_batch]
    simp only [ht, hd]
    simp [hp, contained_failure_state]
  · intro ct body hf
    have hp := process_non2xx_eq cfg w { st with queue := ([] : List UrlWithReferrer) } e ct body h1 h2 h3 h4 hf
    have ht : (List.take 10 [e] : List UrlWithReferrer) = [e] := rfl
    have hd : (List.drop 10 [e] : List UrlWithReferrer) = [] := rfl
    simp only [run_queue_fuel, process_batch]
    simp only [ht, hd]
    simp [hp, contained_failure_state]

/-- Witness for C8: crawling the decode-failure world from the root URL
aborts with the fatal error. -/
theorem body_decode_aborts_crawl_witness :
    ((UrlWithReferrer.mk urlA none).url.starts_with cfg0.base_url &&
        is_html (UrlWithReferrer.mk urlA none).url none) = true ∧
    run_queue_fuel cfg0 w_fatal 10 1
        { empty_state with queue := [UrlWithReferrer.mk urlA none] } =
      some (.error "Failed to read response text") :=
  ⟨by decide,
    (body_decode_aborts_crawl cfg0 w_fatal empty_state
        (UrlWithReferrer.mk urlA none) 0 (by decide) (by decide) rfl
        (by decide)).1 (some "text/html") rfl (by decide)⟩

theorem check_response_fields (cfg : Config) (w : World) (st : CrawlState)
    (url : Url) :
    (check_response_internal_maybe_html cfg w st url).2.queue = st.queue ∧
    (check_response_internal_maybe_html cfg w st url).2.visited = st.visited ∧
    (check_response_internal_maybe_html cfg w st url).2.dispatched =
      st.dispatched := by
  unfold check_response_internal_maybe_html
  split
  · exact ⟨rfl, rfl, rfl⟩
  · split
    · exact ⟨rfl, rfl, rfl⟩
    · split
      · exact ⟨rfl, rfl, rfl⟩
      · split
        · exact ⟨rfl, rfl, rfl⟩
        · exact ⟨rfl, rfl, rfl⟩

theorem check_response_success_next (cfg : Config) (w : World)
    (st : CrawlState) (url : Url) (next : List UrlWithReferrer)
    (h : (check_response_internal_maybe_html cfg w st url).1 =
      .ok (.success (some next))) :
    ∃ s, next = extract_links cfg w url s := by
  unfold check_response_internal_maybe_html at h
  split at h
  · cases h
  · split at h
    · cases h
    · split at h
      · simp at h
      · split at h
        · cases h
        · dsimp only at h
          simp only [Except.ok.injEq, CheckResult.success.injEq,
            Option.some.injEq] at h
          exact ⟨_, h.symm⟩

theorem check_non_internal_fields (w : World) (st : CrawlState) (url : Url) :
    (check_non_internal_html w st url).queue = st.queue ∧
    (check_non_internal_html w st url).visited = st.visited ∧
    (check_non_internal_html w st url).dispatched = st.dispatched := by
  unfold check_non_internal_html
  split
  · split
    · exact ⟨rfl, rfl, rfl⟩
    · exact ⟨rfl, rfl, rfl⟩
  · exact ⟨rfl, rfl, rfl⟩

theorem process_shape (cfg : Config) (w : World) (st : CrawlState)
    (e : UrlWithReferrer) :
    ((process_url_parallel cfg w st e).2.visited = st.visited ∧
      (process_url_parallel cfg w st e).2.queue = st.queue ∧
      (process_url_parallel cfg w st e).2.dispatched = st.dispatched) ∨
    (normalize_url e.url ∉ st.visited ∧
      (process_url_parallel cfg w st e).2.visited =
        normalize_url e.url :: st.visited ∧
      (((process_url_parallel cfg w st e).2.queue = st.queue ∧
          (process_url_parallel cfg w st e).2.dispatched = st.dispatched) ∨
        ((process_url_parallel cfg w st e).2.dispatched =
            st.dispatched ++ [e.url] ∧
          ((process_url_parallel cfg w st e).2.queue = st.queue ∨
            ∃ s, (process_url_parallel cfg w st e).2.queue =
              st.queue ++ extract_links cfg w e.url s)))) := by
  by_cases h1 : str_starts e.url.scheme "http"
  case neg =>
    rw [Bool.not_eq_true] at h1
    left
    simp [process_url_parallel, h1]
  case pos =>
  by_cases h2 : normalize_url e.url ∈ st.visited
  case pos =>
    left
    simp [process_url_parallel, mark_visited, h1, h2]
  case neg =>
  by_cases h3 : (cfg.internal_only && !e.url.starts_with cfg.base_url) = true
  case pos =>
    right
    refine ⟨h2, ?_, Or.inl ⟨?_, ?_⟩⟩ <;>
      simp [process_url_parallel, mark_visited, h1, h2, h3]
  case neg =>
  rw [Bool.not_eq_true] at h3
  by_cases h4 : (e.url.starts_with cfg.base_url && is_html e.url none) = true
  case neg =>
    rw [Bool.not_eq_true] at h4
    obtain ⟨fq, fv, fd⟩ := check_non_internal_fields w
      { st with visited := normalize_url e.url :: st.visited,
                dispatched := st.dispatched ++ [e.url] } e.url
    right
    refine ⟨h2, ?_, Or.inr ⟨?_, Or.inl ?_⟩⟩ <;>
      simp [process_url_parallel, mark_visited, h1, h2, h3, h4, fq, fv, fd]
  case pos =>
    rcases hc : check_response_internal_maybe_html cfg w
      { st with visited := normalize_url e.url :: st.visited,
                dispatched := st.dispatched ++ [e.url] } e.url with ⟨res, st3⟩
    have hfields := check_response_fields cfg w
      { st with visited := normalize_url e.url :: st.visited,
                dispatched := st.dispatched ++ [e.url] } e.url
    rw [hc] at hfields
    obtain ⟨fq, fv, fd⟩ := hfields
    simp only at fq fv fd
    cases res with
    | error msg =>
      right
      refine ⟨h2, ?_, Or.inr ⟨?_, Or.inl ?_⟩⟩ <;>
        simp [process_url_parallel, mark_visited, h1, h2, h3, h4, hc, fq, fv, fd]
    | ok cr =>
      cases cr with
      | failure =>
        right
        refine ⟨h2, ?_, Or.inr ⟨?_, Or.inl ?_⟩⟩ <;>
          simp [process_url_parallel, mark_visited, h1, h2, h3, h4, hc, fq, fv, fd]
      | success onext =>
        cases onext with
        | none =>
          right
          refine ⟨h2, ?_, Or.inr ⟨?_, Or.inl ?_⟩⟩ <;>
            simp [process_url_parallel, mark_visited, h1, h2, h3, h4, hc, fq, fv, fd]
        | some next =>
          obtain ⟨s, hs⟩ := check_response_success_next cfg w
            { st with visited := normalize_url e.url :: st.visited,
                      dispatched := st.dispatched ++ [e.url] } e.url next
            (by rw [hc])
          right
          refine ⟨h2, ?_, Or.inr ⟨?_, Or.inr ⟨s, ?_⟩⟩⟩ <;>
            simp [process_url_parallel, mark_visited, h1, h2, h3, h4, hc, fq,
              fv, fd, hs]

theorem unvisited_mono (site v v2 : List Url)
    (hsub : ∀ x, x ∈ v → x ∈ v2) :
    unvisited_count site v2 ≤ unvisited_count site v := by
  apply Finset.card_le_card
  intro k hk
  simp only [unvisited_count, Finset.mem_filter] at hk ⊢
  exact ⟨hk.1, fun hmem => hk.2 (hsub k hmem)⟩

theorem unvisited_insert (site v : List Url) (u : Url) (hu : u ∈ site)
    (hnv : normalize_url u ∉ v) :
    unvisited_count site (normalize_url u :: v) + 1 =
      unvisited_count site v := by
  have hm : normalize_url u ∈
      (site.map normalize_url).toFinset.filter (fun k => k ∉ v) := by
    simp only [Finset.mem_filter, List.mem_toFinset, List.mem_map]
    exact ⟨⟨u, hu, rfl⟩, hnv⟩
  have he : (site.map normalize_url).toFinset.filter
        (fun k => k ∉ normalize_url u :: v) =
      ((site.map normalize_url).toFinset.filter
        (fun k => k ∉ v)).erase (normalize_url u) := by
    ext x
    simp only [Finset.mem_filter, Finset.mem_erase, List.mem_cons]
    constructor
    · rintro ⟨hx1, hx2⟩
      push_neg at hx2
      exact ⟨hx2.1, hx1, hx2.2⟩
    · rintro ⟨hne, hx1, hx2⟩
      refine ⟨hx1, ?_⟩
      push_neg
      exact ⟨hne, hx2⟩
  have hpos : 0 <
      ((site.map normalize_url).toFinset.filter (fun k => k ∉ v)).card :=
    Finset.card_pos.mpr ⟨_, hm⟩
  unfold unvisited_count
  rw [he, Finset.card_erase_of_mem hm]
  omega

theorem extract_links_length (cfg : Config) (w : World) (b : Url)
    (s : String) :
    (extract_links cfg w b s).length ≤ (w.page_links b s).length := by
  unfold extract_links
  refine le_trans (List.length_filter_le _ _) ?_
  refine le_trans (List.length_filter_le _ _) ?_
  rw [List.length_map]

theorem extract_links_mem_links (cfg : Config) (w : World) (b : Url)
    (s : String) (e : UrlWithReferrer) (h : e ∈ extract_links cfg w b s) :
    e.url ∈ w.page_links b s := by
  unfold extract_links at h
  have h1 := (List.mem_filter.mp h).1
  have h2 := (List.mem_filter.mp h1).1
  obtain ⟨u, hu, heq⟩ := List.mem_map.mp h2
  rw [← heq]
  exact hu

theorem process_measure (cfg : Config) (w : World) (site : List Url)
    (L : Nat) (st : CrawlState) (e : UrlWithReferrer)
    (hw : GoodWorld w site L) (he : e.url ∈ site)
    (hq : QueueInSite site st) :
    QueueInSite site (process_url_parallel cfg w st e).2 ∧
    crawl_measure site L (process_url_parallel cfg w st e).2 ≤
      crawl_measure site L st ∧
    (∀ x, x ∈ st.visited → x ∈ (process_url_parallel cfg w st e).2.visited) := by
  rcases process_shape cfg w st e with ⟨hv, hqq, _⟩ | ⟨hnv, hv, hrest⟩
  · refine ⟨?_, ?_, ?_⟩
    · intro x hx; rw [hqq] at hx; exact hq x hx
    · unfold crawl_measure; rw [hqq, hv]
    · intro x hx; rw [hv]; exact hx
  · have hmono : unvisited_count site (normalize_url e.url :: st.visited) ≤
        unvisited_count site st.visited :=
      unvisited_mono site st.visited _ (fun x hx => List.mem_cons_of_mem _ hx)
    have hvx : ∀ x, x ∈ st.visited →
        x ∈ (process_url_parallel cfg w st e).2.visited := by
      intro x hx; rw [hv]; exact List.mem_cons_of_mem _ hx
    rcases hrest with ⟨hqq, _⟩ | ⟨_, hqq | ⟨s, hqq⟩⟩
    · refine ⟨?_, ?_, hvx⟩
      · intro x hx; rw [hqq] at hx; exact hq x hx
      · unfold crawl_measure
        rw [hqq, hv]
        exact Nat.add_le_add_left (Nat.mul_le_mul_right L hmono) _
    · refine ⟨?_, ?_, hvx⟩
      · intro x hx; rw [hqq] at hx; exact hq x hx
      · unfold crawl_measure
        rw [hqq, hv]
        exact Nat.add_le_add_left (Nat.mul_le_mul_right L hmono) _
    · refine ⟨?_, ?_, hvx⟩
      · intro x hx
        rw [hqq] at hx
        rcases List.mem_append.mp hx with hx | hx
        · exact hq x hx
        · exact (hw e.url he s).2 x.url (extract_links_mem_links cfg w e.url s x hx)
      · have hins := unvisited_insert site st.visited e.url he hnv
        have hlen : (extract_links cfg w e.url s).length ≤ L :=
          le_trans (extract_links_length cfg w e.url s) (hw e.url he s).1
        unfold crawl_measure
        rw [hqq, hv, List.length_append]
        have hmul : unvisited_count site st.visited * L =
            unvisited_count site (normalize_url e.url :: st.visited) * L + L := by
          rw [← hins, Nat.add_mul, Nat.one_mul]
        omega

theorem process_batch_fst (cfg : Config) (w : World) (st : CrawlState)
    (e : UrlWithReferrer) (rest : List UrlWithReferrer) :
    (process_batch cfg w st (e :: rest)).1 =
      (process_batch cfg w (process_url_parallel cfg w st e).2 rest).1 := by
  rcases hp : (process_url_parallel cfg w st e).1 with _ | _ | _ | fatal | _
  · simp [process_batch, hp]
  · simp [process_batch, hp]
  · simp [process_batch, hp]
  · cases fatal <;> simp [process_batch, hp]
  · simp [process_batch, hp]

theorem batch_measure (cfg : Config) (w : World) (site : List Url) (L : Nat)
    (hw : GoodWorld w site L) :
    ∀ batch st, (∀ e, e ∈ batch → e.url ∈ site) → QueueInSite site st →
      QueueInSite site (process_batch cfg w st batch).1 ∧
      crawl_measure site L (process_batch cfg w st batch).1 ≤
        crawl_measure site L st := by
  intro batch
  induction batch with
  | nil => intro st _ hq; exact ⟨hq, le_refl _⟩
  | cons e rest ih =>
    intro st hb hq
    obtain ⟨hq2, hm2, _⟩ := process_measure cfg w site L st e hw
      (hb e (List.mem_cons_self e rest)) hq
    obtain ⟨hq3, hm3⟩ := ih (process_url_parallel cfg w st e).2
      (fun x hx => hb x (List.mem_cons_of_mem e hx)) hq2
    rw [process_batch_fst]
    exact ⟨hq3, le_trans hm3 hm2⟩

theorem process_dispatch_inv (cfg : Config) (w : World) (st : CrawlState)
    (e : UrlWithReferrer) (h : DispatchInv st) :
    DispatchInv (process_url_parallel cfg w st e).2 := by
  obtain ⟨hnd, hsub⟩ := h
  rcases process_shape cfg w st e with ⟨hv, _, hd⟩ | ⟨hnv, hv, hrest⟩
  · constructor
    · rw [hd]; exact hnd
    · intro u hu; rw [hv]; exact hsub u (hd ▸ hu)
  · rcases hrest with ⟨_, hd⟩ | ⟨hd, _⟩
    · constructor
      · rw [hd]; exact hnd
      · intro u hu
        rw [hv]
        exact List.mem_cons_of_mem _ (hsub u (hd ▸ hu))
    · constructor
      · rw [hd, List.map_append]
        refine List.Nodup.append hnd (List.nodup_singleton _) ?_
        intro x hx1 hx2
        simp only [List.map_cons, List.map_nil, List.mem_singleton] at hx2
        subst hx2
        obtain ⟨u, hu, hxu⟩ := List.mem_map.mp hx1
        exact hnv (hxu ▸ hsub u hu)
      · intro u hu
        rw [hv]
        rw [hd] at hu
        rcases List.mem_append.mp hu with h | h
        · exact List.mem_cons_of_mem _ (hsub u h)
        · simp only [List.mem_singleton] at h
          subst h
          exact List.mem_cons_self _ _

theorem batch_dispatch_inv (cfg : Config) (w : World) :
    ∀ batch st, DispatchInv st →
      DispatchInv (process_batch cfg w st batch).1 := by
  intro batch
  induction batch with
  | nil => intro st h; exact h
  | cons e rest ih =>
    intro st h
    rw [process_batch_fst]
    exact ih _ (process_dispatch_inv cfg w st e h)

theorem run_dispatch_inv (cfg : Config) (w : World) (K : Nat) :
    ∀ fuel st n fin, DispatchInv st →
      run_queue_fuel cfg w K fuel st = some (.ok (n, fin)) →
      DispatchInv fin := by
  intro fuel
  induction fuel with
  | zero => intro st n fin _ h; simp [run_queue_fuel] at h
  | succ fuel ih =>
    intro st n fin hinv h
    simp only [run_queue_fuel] at h
    split at h
    · simp only [Option.some.injEq, Except.ok.injEq, Prod.mk.injEq] at h
      rw [← h.2]
      exact hinv
    · split at h
      · cases h
      · split at h
        · cases h
        · cases h
        · next n2 fin2 heq =>
          simp only [Option.some.injEq, Except.ok.injEq, Prod.mk.injEq] at h
          rw [← h.2]
          exact ih _ n2 fin2
            (batch_dispatch_inv cfg w (List.take K st.queue)
              { st with queue := List.drop K st.queue } hinv) heq

theorem run_fuel_adequate (cfg : Config) (w : World) (K : Nat)
    (site : List Url) (L : Nat) (hw : GoodWorld w site L) (hK : 0 < K) :
    ∀ fuel st, crawl_measure site L st < fuel → QueueInSite site st →
      (run_queue_fuel cfg w K fuel st).isSome = true := by
  intro fuel
  induction fuel with
  | zero => intro st hm _; exact absurd hm (Nat.not_lt_zero _)
  | succ fuel ih =>
    intro st hm hq
    simp only [run_queue_fuel]
    split
    · rfl
    · next hne =>
      have hnil : st.queue ≠ [] := by
        intro hq0
        rw [hq0] at hne
        simp at hne
      have hlq : st.queue.length ≠ 0 :=
        fun h0 => hnil (List.length_eq_zero.mp h0)
      have hbmem : ∀ e, e ∈ st.queue.take K → e.url ∈ site :=
        fun e hx => hq e (List.take_subset K st.queue hx)
      have hqmid : QueueInSite site { st with queue := st.queue.drop K } :=
        fun x hx => hq x (List.drop_subset K st.queue hx)
      obtain ⟨hq2, hm2⟩ := batch_measure cfg w site L hw (st.queue.take K)
        { st with queue := st.queue.drop K } hbmem hqmid
      have hmid : crawl_measure site L { st with queue := st.queue.drop K } +
          (st.queue.take K).length = crawl_measure site L st := by
        unfold crawl_measure
        simp only [List.length_take, List.length_drop]
        omega
      have hlen1 : 1 ≤ (st.queue.take K).length := by
        rw [List.length_take]
        omega
      have hlt : crawl_measure site L
          (process_batch cfg w { st with queue := st.queue.drop K }
            (st.queue.take K)).1 < fuel := by omega
      split
      · rfl
      · have hsome := ih (process_batch cfg w
          { st with queue := st.queue.drop K } (st.queue.take K)).1 hlt hq2
        split
        · next hnone =>
          rw [hnone] at hsome
          simp at hsome
        · rfl
        · rfl

theorem run_waves_le (cfg : Config) (w : World) (K : Nat) (site : List Url)
    (L : Nat) (hw : GoodWorld w site L) :
    ∀ fuel st n fin, QueueInSite site st →
      run_queue_fuel cfg w K fuel st = some (.ok (n, fin)) →
      n ≤ crawl_measure site L st := by
  intro fuel
  induction fuel with
  | zero => intro st n fin _ h; simp [run_queue_fuel] at h
  | succ fuel ih =>
    intro st n fin hq h
    simp only [run_queue_fuel] at h
    split at h
    · simp only [Option.some.injEq, Except.ok.injEq, Prod.mk.injEq] at h
      rw [← h.1]
      exact Nat.zero_le _
    · next hne =>
      have hnil : st.queue ≠ [] := by
        intro hq0
        rw [hq0] at hne
        simp at hne
      have hlq : st.queue.length ≠ 0 :=
        fun h0 => hnil (List.length_eq_zero.mp h0)
      have hbmem : ∀ e, e ∈ st.queue.take K → e.url ∈ site :=
        fun e hx => hq e (List.take_subset K st.queue hx)
      have hqmid : QueueInSite site { st with queue := st.queue.drop K } :=
        fun x hx => hq x (List.drop_subset K st.queue hx)
      obtain ⟨hq2, hm2⟩ := batch_measure cfg w site L hw (st.queue.take K)
        { st with queue := st.queue.drop K } hbmem hqmid
      have hmid : crawl_measure site L { st with queue := st.queue.drop K } +
          (st.queue.take K).length = crawl_measure site L st := by
        unfold crawl_measure
        simp only [List.length_take, List.length_drop]
        omega
      have htake_ne : st.queue.take K ≠ [] := by
        intro h0
        rw [h0] at hne
        simp at hne
      have hlen1 : 1 ≤ (st.queue.take K).length := List.length_pos.mpr htake_ne
      split at h
      · cases h
      · split at h
        · cases h
        · cases h
        · next n2 fin2 heq =>
          simp only [Option.some.injEq, Except.ok.injEq, Prod.mk.injEq] at h
          obtain ⟨hn, hfin⟩ := h
          have hih := ih _ n2 fin2 hq2 heq
          omega

/-- C2 counterexample: the two-page site `urlA → urlB` has 2 distinct
normalized URLs and is crawled with parallelism 10, whose claimed wave bound
is ⌈2/10⌉ = 1; the crawl terminates but executes 2 waves, because a page's
discoveries are only dispatchable from the next wave onward. -/
theorem waves_bound_counterexample :
    ([urlA, urlB].map normalize_url).dedup.length = 2 ∧
    run_queue_fuel cfg0 w2 10 5 (init_state urlA) = some (.ok (2, finA)) ∧
    ¬(2 ≤ (2 + 10 - 1) / 10) :=
  ⟨by decide, rfl, by decide⟩

/-- C2 amended: over any finite closed link universe in which every page
yields at most `L` candidate links, the crawl loop terminates — fuel equal
to the measure (pending frontier entries plus `L` for each unvisited
normalized site key) plus one suffices — and the number of waves executed is
bounded by that measure, not by ⌈distinct normalized URLs / K⌉. -/
theorem run_queue_terminates (cfg : Config) (w : World) (K : Nat)
    (site : List Url) (L : Nat) (st : CrawlState)
    (hw : GoodWorld w site L) (hK : 0 < K) (hq : QueueInSite site st) :
    (run_queue_fuel cfg w K (crawl_measure site L st + 1) st).isSome = true ∧
    ∀ fuel n fin, run_queue_fuel cfg w K fuel st = some (.ok (n, fin)) →
      n ≤ crawl_measure site L st := by
  constructor
  · exact run_fuel_adequate cfg w K site L hw hK _ st (Nat.lt_succ_self _) hq
  · intro fuel n fin h
    exact run_waves_le cfg w K site L hw fuel st n fin hq h

/-- Witness for C2 amended on the two-page site. -/
theorem run_queue_terminates_witness :
    GoodWorld w2 [urlA, urlB] 1 ∧ 0 < 10 ∧
    QueueInSite [urlA, urlB] (init_state urlA) ∧
    (run_queue_fuel cfg0 w2 10
        (crawl_measure [urlA, urlB] 1 (init_state urlA) + 1)
        (init_state urlA)).isSome = true := by
  have hw : GoodWorld w2 [urlA, urlB] 1 := by
    intro u hu s
    simp only [w2]
    split
    · refine ⟨by simp, ?_⟩
      intro v hv
      simp only [List.mem_singleton] at hv
      subst hv
      simp
    · exact ⟨by simp, by simp⟩
  have hq : QueueInSite [urlA, urlB] (init_state urlA) := by
    intro e he
    simp only [init_state, List.mem_singleton] at he
    subst he
    simp
  exact ⟨hw, by omega, hq,
    (run_queue_terminates cfg0 w2 10 [urlA, urlB] 1 (init_state urlA) hw
      (by omega) hq).1⟩

/-- C1: `mark_visited` returns true exactly when the normalized key is
already in the visited set and inserts it otherwise; a second call for any
URL with the same normalized key returns true; consequently, in a crawl run
to completion, each normalized URL is dispatched to the network at most
once. -/
theorem mark_visited_dedup (v : List Url) (u u2 : Url) (cfg : Config)
    (w : World) (K fuel : Nat) (st : CrawlState) (n : Nat) (fin : CrawlState)
    (x : Url)
    (hsame : normalize_url u2 = normalize_url u)
    (hinv : DispatchInv st)
    (hrun : run_queue_fuel cfg w K fuel st = some (.ok (n, fin))) :
    (normalize_url u ∈ v → mark_visited v u = (true, v)) ∧
    (normalize_url u ∉ v → mark_visited v u = (false, normalize_url u :: v)) ∧
    (mark_visited (mark_visited v u).2 u2).1 = true ∧
    (fin.dispatched.map normalize_url).count x ≤ 1 := by
  refine ⟨?_, ?_, ?_, ?_⟩
  · intro h
    simp [mark_visited, h]
  · intro h
    simp [mark_visited, h]
  · by_cases h : normalize_url u ∈ v
    · simp [mark_visited, h, hsame]
    · simp [mark_visited, h, hsame]
  · exact List.nodup_iff_count_le_one.mp
      (run_dispatch_inv cfg w K fuel st n fin hinv hrun).1 x

/-- Witness for C1: the completed two-page crawl dispatches each normalized
URL at most once, and a second mark of the same key returns true. -/
theorem mark_visited_dedup_witness :
    DispatchInv (init_state urlA) ∧
    run_queue_fuel cfg0 w2 10 5 (init_state urlA) = some (.ok (2, finA)) ∧
    (mark_visited (mark_visited [] urlX1).2 urlX1).1 = true ∧
    (finA.dispatched.map normalize_url).count urlA ≤ 1 := by
  have hinv : DispatchInv (init_state urlA) := by
    constructor
    · simp [init_state]
    · intro u hu
      simp [init_state] at hu
  have h := mark_visited_dedup [] urlX1 urlX1 cfg0 w2 10 5 (init_state urlA)
    2 finA urlA rfl hinv rfl
  exact ⟨hinv, rfl, h.2.2.1, h.2.2.2⟩
